import Mathlib

/-
Verification of the MPICH allgather collective core.

Shallow embedding of:
  src/mpi/coll/allgather/allgather.c      (MPIR_Allgather_intra, MPIR_Allgather_inter,
                                           MPIR_Allgather, MPI_Allgather)
  src/mpi/coll/iallgather/iallgather_ring.c (MPIR_Iallgather_ring_sched)
  src/mpi/coll/nhb_allgather/nhb_allgather_nb.c (MPIR_Neighbor_allgather_nb)

Buffer contents and all external collaborator behaviour (the point-to-point layer,
the device implementation, the bodies of the individual allgather algorithms that
are not part of this excerpt) are threaded through an abstract state type sigma and
abstract body functions, so every theorem below holds for every behaviour of those
collaborators.
-/

/-- MPI_SUCCESS return code (value 0 per mpi.h). -/
def MPI_SUCCESS : Int := 0

/-- MPI_ERR_OTHER error class. Only the fact that it is nonzero matters below. -/
def MPI_ERR_OTHER : Int := 15

/-- MPIX_ERR_PROC_FAILED error class. Only the fact that it is nonzero matters below. -/
def MPIX_ERR_PROC_FAILED : Int := 75

/-- MPIR_Errflag_t: MPIR_ERR_NONE, MPIR_ERR_PROC_FAILED, MPIR_ERR_OTHER. -/
inductive MPIR_Errflag_t where
  | err_none
  | proc_failed
  | err_other
deriving DecidableEq

/-- The error code `MPIR_ERR_SET(mpi_errno, *errflag, "**coll_fail")` stores into
mpi_errno at fn_exit of MPIR_Allgather_intra: the class is MPIX_ERR_PROC_FAILED when
the flag records a process failure and MPI_ERR_OTHER otherwise; always nonzero. -/
def coll_fail_code : MPIR_Errflag_t → Int
  | MPIR_Errflag_t.proc_failed => MPIX_ERR_PROC_FAILED
  | _ => MPI_ERR_OTHER

/-- Communicator kind: MPIR_COMM_KIND__INTRACOMM or MPIR_COMM_KIND__INTERCOMM. -/
inductive MPIR_Comm_kind where
  | intracomm
  | intercomm
deriving DecidableEq

/-- The slice of MPIR_Comm read by this core: rank, local_size and comm_kind. -/
structure MPIR_Comm where
  rank : Nat
  local_size : Nat
  comm_kind : MPIR_Comm_kind
deriving DecidableEq

/-- A datatype descriptor: size in bytes per element (MPIR_Datatype_get_size_macro)
and extent in bytes (MPIR_Datatype_get_extent_macro). -/
structure Datatype where
  type_size : Nat
  extent : Nat
deriving DecidableEq

/-- MPIR_CVAR_ALLGATHER_ALGORITHM_INTRA values (auto / brucks / recursive_doubling / ring). -/
inductive MPIR_Allgather_alg_intra where
  | auto
  | brucks
  | recursive_doubling
  | ring
deriving DecidableEq

/-- MPIR_CVAR_ALLGATHER_ALGORITHM_INTER values (auto / generic). -/
inductive MPIR_Allgather_alg_inter where
  | auto
  | generic
deriving DecidableEq

/-- The CVAR configuration read by this core.  Defaults per the cvar block of
allgather.c: short_msg_size = 81920, long_msg_size = 524288, both algorithm choices
auto, allgather_device_collective = true. -/
structure Cvars where
  short_msg_size : Int
  long_msg_size : Int
  alg_intra_choice : MPIR_Allgather_alg_intra
  alg_inter_choice : MPIR_Allgather_alg_inter
  allgather_device_collective : Bool
  device_collectives : Bool
deriving DecidableEq

/-- The argument list of an allgather call as far as this core inspects it.
`sendbuf_in_place` records whether sendbuf == MPI_IN_PLACE; raw buffer addresses are
not modelled, buffer contents live in the abstract state threaded through the
algorithm bodies. -/
structure AllgatherArgs where
  sendbuf_in_place : Bool
  sendcount : Nat
  sendtype : Datatype
  recvcount : Nat
  recvtype : Datatype
deriving DecidableEq

/-- Line 168 of allgather.c:
`if (((sendcount == 0) && (sendbuf != MPI_IN_PLACE)) || (recvcount == 0))`. -/
def allgather_zero_size (args : AllgatherArgs) : Bool :=
  (args.sendcount == 0 && !args.sendbuf_in_place) || args.recvcount == 0

/-- `(MPI_Aint)recvcount * comm_size * type_size` computed in MPI_Aint (signed 64-bit
two's-complement) arithmetic.  Each multiplication wraps modulo 2^64 into the range
(-2^63, 2^63]; since Int.bmod is a ring homomorphism from the exact product, wrapping
once at the end is the same as wrapping at every step. -/
def toMPIAint (n : Nat) : Int := Int.bmod (n : Int) (2 ^ 64)

/-- The three intra-communicator algorithms MPIR_Allgather_intra can select. -/
inductive AllgatherAlg where
  | recursive_doubling
  | brucks
  | ring
deriving DecidableEq

/-- Shape of an allgather algorithm over abstract memory state sigma: it receives the
call arguments, the communicator, the state, and the errflag (an in/out parameter in
the C code), and returns the error code, the new state and the new errflag. -/
def AlgBody (σ : Type) : Type :=
  AllgatherArgs → MPIR_Comm → σ → MPIR_Errflag_t → Int × σ × MPIR_Errflag_t

/-- Modelled from the spec: the body of MPIR_Allgather_brucks is not part of this
excerpt (only its callers are).  Spec section 4.1: "Zero-size calls (send count zero and
not in-place, or receive count zero) return immediately with no data movement and no
error."  Behaviour on nonzero sizes is the abstract body `body`. -/
def MPIR_Allgather_brucks {σ : Type} (body : AlgBody σ) : AlgBody σ :=
  fun args comm st flag =>
    if allgather_zero_size args then (MPI_SUCCESS, st, flag)
    else body args comm st flag

/-- Modelled from the spec: the body of MPIR_Allgather_recursive_doubling is not part
of this excerpt; its zero-size early return follows spec section 4.1, the rest is the
abstract body `body`. -/
def MPIR_Allgather_recursive_doubling {σ : Type} (body : AlgBody σ) : AlgBody σ :=
  fun args comm st flag =>
    if allgather_zero_size args then (MPI_SUCCESS, st, flag)
    else body args comm st flag

/-- Modelled from the spec: the body of MPIR_Allgather_ring (the blocking ring
algorithm) is not part of this excerpt; its zero-size early return follows spec
section 4.1, the rest is the abstract body `body`. -/
def MPIR_Allgather_ring {σ : Type} (body : AlgBody σ) : AlgBody σ :=
  fun args comm st flag =>
    if allgather_zero_size args then (MPI_SUCCESS, st, flag)
    else body args comm st flag

/-- Modelled from the spec: the body of MPIR_Allgather_generic_inter is not part of
this excerpt; its zero-size early return follows spec section 4.1, the rest is the
abstract body `body`. -/
def MPIR_Allgather_generic_inter {σ : Type} (body : AlgBody σ) : AlgBody σ :=
  fun args comm st flag =>
    if allgather_zero_size args then (MPI_SUCCESS, st, flag)
    else body args comm st flag

/-- The selection logic of MPIR_Allgather_intra (allgather.c lines 162-187), returning
which algorithm is dispatched, or none when the zero-size early return of line 168
fires.  The unused state argument `st` mirrors the fact that the C function receives
the send/receive buffers but the selection never reads them. -/
def MPIR_Allgather_intra_select {σ : Type} (cvars : Cvars) (args : AllgatherArgs)
    (comm : MPIR_Comm) (_st : σ) : Option AllgatherAlg :=
  if allgather_zero_size args then none
  else
    let comm_size := comm.local_size
    let type_size := args.recvtype.type_size
    let tot_bytes : Int := toMPIAint (args.recvcount * comm_size * type_size)
    if tot_bytes < cvars.long_msg_size ∧ comm_size &&& (comm_size - 1) = 0 then
      some AllgatherAlg.recursive_doubling
    else if tot_bytes < cvars.short_msg_size then
      some AllgatherAlg.brucks
    else
      some AllgatherAlg.ring

/-- The fn_exit block of MPIR_Allgather_intra (allgather.c lines 190-196).
mpi_errno_ret is never assigned in that function, so the branch reduces to: when
*errflag != MPIR_ERR_NONE the returned code is replaced by the "**coll_fail" code
synthesised from the flag class, otherwise the algorithm's own code is returned. -/
def allgather_exit_errflag {σ : Type} (r : Int × σ × MPIR_Errflag_t) :
    Int × σ × MPIR_Errflag_t :=
  if r.2.2 ≠ MPIR_Errflag_t.err_none then (coll_fail_code r.2.2, r.2.1, r.2.2) else r

/-- MPIR_Allgather_intra (allgather.c lines 152-200): zero-size early return, then
size-based dispatch on tot_bytes = (MPI_Aint)recvcount * comm_size * type_size and the
power-of-two test `!(comm_size & (comm_size - 1))`, then the fn_exit errflag summary.
`rd_body`, `br_body`, `ri_body` are the abstract nonzero-size bodies of the three
algorithms. -/
def MPIR_Allgather_intra {σ : Type} (rd_body br_body ri_body : AlgBody σ)
    (cvars : Cvars) : AlgBody σ :=
  fun args comm st flag =>
    if allgather_zero_size args then (MPI_SUCCESS, st, flag)
    else
      let comm_size := comm.local_size
      let type_size := args.recvtype.type_size
      let tot_bytes : Int := toMPIAint (args.recvcount * comm_size * type_size)
      allgather_exit_errflag
        (if tot_bytes < cvars.long_msg_size ∧ comm_size &&& (comm_size - 1) = 0 then
          MPIR_Allgather_recursive_doubling rd_body args comm st flag
        else if tot_bytes < cvars.short_msg_size then
          MPIR_Allgather_brucks br_body args comm st flag
        else
          MPIR_Allgather_ring ri_body args comm st flag)

/-- MPIR_Allgather_inter (allgather.c lines 210-226): always the generic exchange. -/
def MPIR_Allgather_inter {σ : Type} (gi_body : AlgBody σ) : AlgBody σ :=
  fun args comm st flag =>
    MPIR_Allgather_generic_inter gi_body args comm st flag

/-- MPIR_Allgather (allgather.c lines 236-279): dispatch on comm_kind and on the
algorithm-choice cvars; the auto/default cases fall through to MPIR_Allgather_intra
resp. MPIR_Allgather_inter.  The trailing `if (mpi_errno) MPIR_ERR_POP` plus fn_exit
return the dispatched result unchanged. -/
def MPIR_Allgather {σ : Type} (rd_body br_body ri_body gi_body : AlgBody σ)
    (cvars : Cvars) : AlgBody σ :=
  fun args comm st flag =>
    if comm.comm_kind = MPIR_Comm_kind.intracomm then
      match cvars.alg_intra_choice with
      | MPIR_Allgather_alg_intra.brucks =>
          MPIR_Allgather_brucks br_body args comm st flag
      | MPIR_Allgather_alg_intra.recursive_doubling =>
          MPIR_Allgather_recursive_doubling rd_body args comm st flag
      | MPIR_Allgather_alg_intra.ring =>
          MPIR_Allgather_ring ri_body args comm st flag
      | MPIR_Allgather_alg_intra.auto =>
          MPIR_Allgather_intra rd_body br_body ri_body cvars args comm st flag
    else
      match cvars.alg_inter_choice with
      | MPIR_Allgather_alg_inter.generic =>
          MPIR_Allgather_generic_inter gi_body args comm st flag
      | MPIR_Allgather_alg_inter.auto =>
          MPIR_Allgather_inter gi_body args comm st flag

/-- The body of MPI_Allgather after validation (allgather.c lines 415-424 plus the
fn_fail wrap): when both MPIR_CVAR_ALLGATHER_DEVICE_COLLECTIVE and
MPIR_CVAR_DEVICE_COLLECTIVES are set, MPID_Allgather (the abstract `device`) runs,
otherwise MPIR_Allgather runs; errflag starts as MPIR_ERR_NONE; a nonzero result is
passed through the error-reporting wrap (`err_return`, modelling
MPIR_Err_create_code / MPIR_Err_return_comm at fn_fail). -/
def MPI_Allgather {σ : Type} (device rd_body br_body ri_body gi_body : AlgBody σ)
    (cvars : Cvars) (err_return : Int → Int) (args : AllgatherArgs)
    (comm : MPIR_Comm) (st : σ) : Int × σ :=
  let r :=
    if cvars.allgather_device_collective && cvars.device_collectives then
      device args comm st MPIR_Errflag_t.err_none
    else
      MPIR_Allgather rd_body br_body ri_body gi_body cvars args comm st
        MPIR_Errflag_t.err_none
  if r.1 ≠ MPI_SUCCESS then (err_return r.1, r.2.1) else (r.1, r.2.1)

/-- MPIR_Neighbor_allgather_nb (nhb_allgather_nb.c lines 13-28).  `start` models
MPID_Ineighbor_allgather: from the state it returns the error code, the request it
stored into `req` and the new state.  `w` models MPIR_Wait_impl on that request.
A failing start jumps to fn_fail/fn_exit and returns its code; otherwise the wait
outcome is returned (also through fn_exit when nonzero). -/
def MPIR_Neighbor_allgather_nb {σ ρ : Type} (start : σ → Int × ρ × σ)
    (w : ρ → σ → Int × σ) (st : σ) : Int × σ :=
  let r := start st
  if r.1 ≠ MPI_SUCCESS then (r.1, r.2.2)
  else
    let r2 := w r.2.1 r.2.2
    (r2.1, r2.2)

/-- Modelled from the spec (sections 4.6 and 6): the specified behaviour of the blocking
neighbor all-gather — "start the non-blocking neighbor all-gather, then wait on the
returned request until completion", performing no data movement of its own and
returning the outcome of that composition. -/
def neighbor_allgather_spec {σ ρ : Type} (start : σ → Int × ρ × σ)
    (w : ρ → σ → Int × σ) (st : σ) : Int × σ :=
  let r := start st
  if r.1 ≠ MPI_SUCCESS then (r.1, r.2.2) else w r.2.1 r.2.2

/-- One operation recorded into an MPIR_Sched_t by the ring schedule builder.  Buffer
positions are recorded as block indices into recvbuf: the byte offset used by the C
code is block * recvcount * recvtype_extent.  A copy always has the send buffer as
source (MPIR_Sched_copy at line 33); send/recv carry the peer rank. -/
inductive SchedOp where
  | copy (dstBlock : Nat)
  | send (srcBlock : Nat) (dest : Nat)
  | recv (dstBlock : Nat) (src : Nat)
  | barrier
deriving DecidableEq

/-- The loop of MPIR_Iallgather_ring_sched (iallgather_ring.c lines 45-59), with the
mutable variables j and jnext made explicit and `n` the number of remaining
iterations (the loop runs for i = 1 .. comm_size-1).  Each iteration records a send
of block j to `right`, a recv into block jnext from `left` with no barrier in
between, then a barrier, then updates j := jnext, jnext := (comm_size+jnext-1) %
comm_size. -/
def ring_sched_loop (comm_size left right : Nat) : Nat → Nat → Nat → List SchedOp
  | _, _, 0 => []
  | j, jnext, n + 1 =>
    SchedOp.send j right :: SchedOp.recv jnext left :: SchedOp.barrier ::
      ring_sched_loop comm_size left right jnext ((comm_size + jnext - 1) % comm_size) n

/-- MPIR_Iallgather_ring_sched (iallgather_ring.c lines 13-65) as the list of schedule
operations it records: for non-in-place calls a copy of sendbuf into block `rank`
followed by a barrier (lines 32-38), then the send/recv loop started at j = rank,
jnext = left = (comm_size+rank-1) % comm_size with right = (rank+1) % comm_size. -/
def MPIR_Iallgather_ring_sched (sendbuf_in_place : Bool) (rank comm_size : Nat) :
    List SchedOp :=
  let left := (comm_size + rank - 1) % comm_size
  let right := (rank + 1) % comm_size
  (if sendbuf_in_place then [] else [SchedOp.copy rank, SchedOp.barrier]) ++
    ring_sched_loop comm_size left right rank left (comm_size - 1)

/-- The (block, destination) pairs of the send operations of a schedule, in order. -/
def schedSends (l : List SchedOp) : List (Nat × Nat) :=
  l.filterMap fun op => match op with
    | SchedOp.send b d => some (b, d)
    | _ => none

/-- The (block, source) pairs of the receive operations of a schedule, in order. -/
def schedRecvs (l : List SchedOp) : List (Nat × Nat) :=
  l.filterMap fun op => match op with
    | SchedOp.recv b s => some (b, s)
    | _ => none

/-- The recvbuf block an operation writes to, if any: copies and receives write their
destination block, sends and barriers write nothing. -/
def writesBlock : SchedOp → Option Nat
  | SchedOp.copy b => some b
  | SchedOp.recv b _ => some b
  | _ => none

/-- Closed form of the block index the ring walk holds k steps after starting from
`rank`: (rank - k) mod comm_size, computed in the integers. -/
def ringBlock (rank comm_size k : Nat) : Nat :=
  (((rank : Int) - (k : Int)) % (comm_size : Int)).toNat

/-- A concrete trivial algorithm body over trivial state, used to instantiate the
abstract collaborators in concrete evaluations: returns success and leaves the flag
alone. -/
def triv_body : AlgBody Unit := fun _ _ _ flag => (MPI_SUCCESS, (), flag)

/-- A concrete algorithm body that reports error 5 and raises the error flag, used to
instantiate the abstract collaborators in concrete evaluations. -/
def err_body : AlgBody Unit := fun _ _ _ _ => (5, (), MPIR_Errflag_t.err_other)

/-- A concrete device body (MPID_Allgather) that returns the recognisable error code 7,
so that whether the device ran is visible in the outcome. -/
def c7_device : AlgBody Unit := fun _ _ _ _ => (7, (), MPIR_Errflag_t.err_none)

/-- Configuration with MPIR_CVAR_ALLGATHER_DEVICE_COLLECTIVE enabled but
MPIR_CVAR_DEVICE_COLLECTIVES disabled (thresholds at their defaults). -/
def c7_cvars : Cvars :=
  ⟨81920, 524288, MPIR_Allgather_alg_intra.auto, MPIR_Allgather_alg_inter.auto,
   true, false⟩

/-- A zero-size argument list: sendcount 0 and not in-place. -/
def c7_args : AllgatherArgs := ⟨false, 0, ⟨1, 1⟩, 1, ⟨1, 1⟩⟩

/-- A four-member intracommunicator at rank 0. -/
def c7_comm : MPIR_Comm := ⟨0, 4, MPIR_Comm_kind.intracomm⟩

/-- A start function (MPID_Ineighbor_allgather) that fails with error 9. -/
def c10_start : Unit → Int × Unit × Unit := fun _ => (9, (), ())

/-- A wait function (MPIR_Wait_impl) that succeeds. -/
def c10_wait0 : Unit → Unit → Int × Unit := fun _ _ => (MPI_SUCCESS, ())

/-- A second wait function that fails with error 3, to witness that the wait is never
consulted after a failing start. -/
def c10_wait1 : Unit → Unit → Int × Unit := fun _ _ => (3, ())

/-- The default CVAR configuration of allgather.c. -/
def default_cvars : Cvars :=
  ⟨81920, 524288, MPIR_Allgather_alg_intra.auto, MPIR_Allgather_alg_inter.auto,
   true, true⟩

/-- Arguments with recvcount x type_size = 100000 bytes per block, used for concrete
evaluation of the selector. -/
def c1_args : AllgatherArgs := ⟨false, 1, ⟨4, 4⟩, 1, ⟨100000, 100000⟩⟩

/-- A four-member (power-of-two) intracommunicator at rank 0. -/
def c1_comm : MPIR_Comm := ⟨0, 4, MPIR_Comm_kind.intracomm⟩

/-- Nonzero-count arguments for concrete evaluation of the errflag exit path. -/
def c6_args : AllgatherArgs := ⟨false, 2, ⟨4, 4⟩, 3, ⟨4, 4⟩⟩

/-- A four-member intracommunicator at rank 1. -/
def c6_comm : MPIR_Comm := ⟨1, 4, MPIR_Comm_kind.intracomm⟩

/-- First argument list for the rank-independence instance: not in place, sendcount 2,
recvcount 5, receive type of size 8 and extent 16. -/
def c9_args1 : AllgatherArgs := ⟨false, 2, ⟨1, 1⟩, 5, ⟨8, 16⟩⟩

/-- Second argument list: in place, different send side and extent, but the same
recvcount 5 and receive type size 8. -/
def c9_args2 : AllgatherArgs := ⟨true, 0, ⟨2, 2⟩, 5, ⟨8, 8⟩⟩

/-- A four-member intracommunicator at rank 0. -/
def c9_comm1 : MPIR_Comm := ⟨0, 4, MPIR_Comm_kind.intracomm⟩

/-- A four-member intracommunicator at rank 3. -/
def c9_comm2 : MPIR_Comm := ⟨3, 4, MPIR_Comm_kind.intracomm⟩

/-- The zero-size test of line 168 is false when the send side is nonzero or in-place
and the receive count is nonzero. -/
theorem allgather_zero_size_false (args : AllgatherArgs)
    (hs : args.sendcount ≠ 0 ∨ args.sendbuf_in_place = true)
    (hr : args.recvcount ≠ 0) : allgather_zero_size args = false := by
  unfold allgather_zero_size
  rcases hs with h | h <;> simp [h, hr]

/-- The "**coll_fail" code is never MPI_SUCCESS. -/
theorem coll_fail_code_ne_success (f : MPIR_Errflag_t) : coll_fail_code f ≠ MPI_SUCCESS := by
  cases f <;> decide

/-- MPI_Aint arithmetic is exact below 2^63. -/
theorem toMPIAint_eq (n : Nat) (h : n < 2 ^ 63) : toMPIAint n = (n : Int) := by
  have h63 : n < 9223372036854775808 := by
    calc n < 2 ^ 63 := h
    _ = 9223372036854775808 := by norm_num
  unfold toMPIAint
  simp only [Int.bmod]
  norm_num
  split <;> omega

/-- A power of two has no bit in common with its predecessor. -/
theorem pow2_land_pred (k : Nat) : 2 ^ k &&& (2 ^ k - 1) = 0 := by
  apply Nat.eq_of_testBit_eq
  intro i
  simp [Nat.testBit_land, Nat.testBit_two_pow, Nat.testBit_two_pow_sub_one,
    Nat.zero_testBit]

/-- Conversely, a positive number with no bit in common with its predecessor is a
power of two. -/
theorem land_pred_zero_pow2 : ∀ n : Nat, 1 ≤ n → n &&& (n - 1) = 0 → ∃ k, n = 2 ^ k := by
  intro n
  induction n using Nat.strong_induction_on with
  | _ n ih =>
    intro h1 h0
    rcases Nat.even_or_odd n with ⟨m, hm⟩ | ⟨m, hm⟩
    · have hm2 : n = 2 * m := by omega
      have hmpos : 1 ≤ m := by omega
      have hdiv : ∀ i, (m.testBit i && (m - 1).testBit i) = false := by
        intro i
        have hb := congrArg (fun x => Nat.testBit x (i + 1)) h0
        simp only [Nat.testBit_land, Nat.zero_testBit] at hb
        rw [Nat.testBit_succ, Nat.testBit_succ] at hb
        have e1 : n / 2 = m := by omega
        have e2 : (n - 1) / 2 = m - 1 := by omega
        rw [e1, e2] at hb
        exact hb
      have hland : m &&& (m - 1) = 0 := by
        apply Nat.eq_of_testBit_eq
        intro i
        simp [Nat.testBit_land, Nat.zero_testBit, hdiv i]
      obtain ⟨k, hk⟩ := ih m (by omega) hmpos hland
      exact ⟨k + 1, by rw [hm2, hk]; ring⟩
    · by_cases hm0 : m = 0
      · exact ⟨0, by omega⟩
      · exfalso
        have hall : ∀ i, m.testBit i = false := by
          intro i
          have hb := congrArg (fun x => Nat.testBit x (i + 1)) h0
          simp only [Nat.testBit_land, Nat.zero_testBit] at hb
          rw [Nat.testBit_succ, Nat.testBit_succ] at hb
          have e1 : n / 2 = m := by omega
          have e2 : (n - 1) / 2 = m := by omega
          rw [e1, e2] at hb
          simpa using hb
        have : m = 0 := Nat.eq_of_testBit_eq fun i => by
          simp [hall i, Nat.zero_testBit]
        exact hm0 this

/-- The C test `!(comm_size & (comm_size - 1))` recognises exactly the powers of two
among the positive integers. -/
theorem land_pred_eq_zero_iff (n : Nat) (h1 : 1 ≤ n) :
    n &&& (n - 1) = 0 ↔ ∃ k, n = 2 ^ k := by
  constructor
  · exact land_pred_zero_pow2 n h1
  · rintro ⟨k, rfl⟩
    exact pow2_land_pred k

/-- C8: for every argument list (every start behaviour, every wait behaviour and every
initial state), the blocking neighbor all-gather MPIR_Neighbor_allgather_nb is
observationally equal to the composition "start the non-blocking neighbor all-gather,
then wait on the returned request until completion": it performs no data movement of
its own and returns the outcome of that composition. -/
theorem neighbor_allgather_nb_refines_spec {σ ρ : Type} (start : σ → Int × ρ × σ)
    (w : ρ → σ → Int × σ) (st : σ) :
    MPIR_Neighbor_allgather_nb start w st = neighbor_allgather_spec start w st := by
  by_cases h : (start st).1 ≠ MPI_SUCCESS <;>
    simp [MPIR_Neighbor_allgather_nb, neighbor_allgather_spec, h]

/-- C10: if starting the non-blocking neighbor all-gather returns an error, the
blocking neighbor all-gather returns that error (and the state the start left behind)
immediately, and its outcome does not depend on the wait function — the wait is never
reached. -/
theorem neighbor_allgather_nb_start_error {σ ρ : Type} (start : σ → Int × ρ × σ)
    (w1 w2 : ρ → σ → Int × σ) (st : σ) (h : (start st).1 ≠ MPI_SUCCESS) :
    MPIR_Neighbor_allgather_nb start w1 st = ((start st).1, (start st).2.2) ∧
    MPIR_Neighbor_allgather_nb start w1 st = MPIR_Neighbor_allgather_nb start w2 st := by
  refine ⟨?_, ?_⟩ <;> simp [MPIR_Neighbor_allgather_nb, h]

/-- Witness for C10 at a concrete failing start: start fails with code 9, and the
result ignores which wait function is supplied. -/
theorem neighbor_allgather_nb_start_error_witness :
    (c10_start ()).1 ≠ MPI_SUCCESS ∧
    (MPIR_Neighbor_allgather_nb c10_start c10_wait0 () =
      ((c10_start ()).1, (c10_start ()).2.2) ∧
     MPIR_Neighbor_allgather_nb c10_start c10_wait0 () =
      MPIR_Neighbor_allgather_nb c10_start c10_wait1 ()) :=
  ⟨by decide, neighbor_allgather_nb_start_error c10_start c10_wait0 c10_wait1 () (by decide)⟩

/-- C3: a zero-size call (send count zero and not in-place, or receive count zero)
returns MPI_SUCCESS with the state (hence the receive buffer) unmodified and the
error flag untouched, on every dispatch path of MPIR_Allgather: automatic intra
selection, each forced per-algorithm override, and both inter-group paths. -/
theorem allgather_zero_size_noop {σ : Type} (rd br ri gi : AlgBody σ) (cvars : Cvars)
    (args : AllgatherArgs) (comm : MPIR_Comm) (st : σ) (flag : MPIR_Errflag_t)
    (hz : (args.sendcount = 0 ∧ args.sendbuf_in_place = false) ∨ args.recvcount = 0) :
    MPIR_Allgather rd br ri gi cvars args comm st flag = (MPI_SUCCESS, st, flag) := by
  have hb : allgather_zero_size args = true := by
    unfold allgather_zero_size
    rcases hz with ⟨h1, h2⟩ | h1
    · simp [h1, h2]
    · simp [h1]
  cases h1 : cvars.alg_intra_choice <;> cases h2 : cvars.alg_inter_choice <;>
    cases hk : comm.comm_kind <;>
      simp [MPIR_Allgather, MPIR_Allgather_inter, MPIR_Allgather_intra,
        MPIR_Allgather_brucks, MPIR_Allgather_recursive_doubling, MPIR_Allgather_ring,
        MPIR_Allgather_generic_inter, hb, h1, h2, hk]

/-- Witness for C3: recvcount = 0, in-place, forced ring choice on an
intercommunicator-capable configuration, with an algorithm body that would report
error 5 and raise the flag if it ever ran; the call still returns success and leaves
state and flag alone. -/
theorem allgather_zero_size_noop_witness :
    (((⟨true, 3, ⟨4, 4⟩, 0, ⟨4, 4⟩⟩ : AllgatherArgs).sendcount = 0 ∧
      (⟨true, 3, ⟨4, 4⟩, 0, ⟨4, 4⟩⟩ : AllgatherArgs).sendbuf_in_place = false) ∨
     (⟨true, 3, ⟨4, 4⟩, 0, ⟨4, 4⟩⟩ : AllgatherArgs).recvcount = 0) ∧
    MPIR_Allgather err_body err_body err_body err_body
      ⟨81920, 524288, MPIR_Allgather_alg_intra.ring, MPIR_Allgather_alg_inter.generic,
       true, true⟩
      ⟨true, 3, ⟨4, 4⟩, 0, ⟨4, 4⟩⟩ ⟨2, 5, MPIR_Comm_kind.intracomm⟩ () 
      MPIR_Errflag_t.err_none = (MPI_SUCCESS, (), MPIR_Errflag_t.err_none) :=
  ⟨Or.inr rfl,
   allgather_zero_size_noop err_body err_body err_body err_body
     ⟨81920, 524288, MPIR_Allgather_alg_intra.ring, MPIR_Allgather_alg_inter.generic,
      true, true⟩
     ⟨true, 3, ⟨4, 4⟩, 0, ⟨4, 4⟩⟩ ⟨2, 5, MPIR_Comm_kind.intracomm⟩ ()
     MPIR_Errflag_t.err_none (Or.inr rfl)⟩

/-- The fn_exit transformation: a set flag forces the nonzero "**coll_fail" code even
over a successful algorithm; a clear flag passes a successful algorithm result
through. -/
theorem allgather_exit_errflag_spec {σ : Type} (r : Int × σ × MPIR_Errflag_t) :
    (r.2.2 ≠ MPIR_Errflag_t.err_none →
      allgather_exit_errflag r = (coll_fail_code r.2.2, r.2.1, r.2.2) ∧
      coll_fail_code r.2.2 ≠ MPI_SUCCESS) ∧
    (r.2.2 = MPIR_Errflag_t.err_none → r.1 = MPI_SUCCESS →
      allgather_exit_errflag r = (MPI_SUCCESS, r.2.1, r.2.2)) := by
  constructor
  · intro h
    exact ⟨by simp [allgather_exit_errflag, h], coll_fail_code_ne_success _⟩
  · intro h he
    calc allgather_exit_errflag r = r := by simp [allgather_exit_errflag, h]
    _ = (r.1, r.2.1, r.2.2) := rfl
    _ = (MPI_SUCCESS, r.2.1, r.2.2) := by rw [he]

/-- C6: for every intra-group call with nonzero counts, MPIR_Allgather_intra runs one
of the three algorithms and then applies the fn_exit errflag summary to its result:
when the group-wide failure flag is set at call exit, the call returns the nonzero
collective-failure code synthesised from the flag even if the selected algorithm
itself returned MPI_SUCCESS; when the flag is clear and the algorithm returned
MPI_SUCCESS, the call returns MPI_SUCCESS. -/
theorem allgather_intra_errflag_exit {σ : Type} (rd br ri : AlgBody σ) (cvars : Cvars)
    (args : AllgatherArgs) (comm : MPIR_Comm) (st : σ) (flag : MPIR_Errflag_t)
    (hsend : args.sendcount ≠ 0 ∨ args.sendbuf_in_place = true)
    (hrecv : args.recvcount ≠ 0) :
    ∃ inner : Int × σ × MPIR_Errflag_t,
      (inner = MPIR_Allgather_recursive_doubling rd args comm st flag ∨
       inner = MPIR_Allgather_brucks br args comm st flag ∨
       inner = MPIR_Allgather_ring ri args comm st flag) ∧
      MPIR_Allgather_intra rd br ri cvars args comm st flag =
        allgather_exit_errflag inner ∧
      (inner.2.2 ≠ MPIR_Errflag_t.err_none →
        MPIR_Allgather_intra rd br ri cvars args comm st flag =
          (coll_fail_code inner.2.2, inner.2.1, inner.2.2) ∧
        coll_fail_code inner.2.2 ≠ MPI_SUCCESS) ∧
      (inner.2.2 = MPIR_Errflag_t.err_none → inner.1 = MPI_SUCCESS →
        MPIR_Allgather_intra rd br ri cvars args comm st flag =
          (MPI_SUCCESS, inner.2.1, inner.2.2)) := by
  have hb := allgather_zero_size_false args hsend hrecv
  unfold MPIR_Allgather_intra
  simp only [hb, Bool.false_eq_true, if_false]
  split
  · exact ⟨_, Or.inl rfl, rfl, (allgather_exit_errflag_spec _).1,
      (allgather_exit_errflag_spec _).2⟩
  · split
    · exact ⟨_, Or.inr (Or.inl rfl), rfl, (allgather_exit_errflag_spec _).1,
        (allgather_exit_errflag_spec _).2⟩
    · exact ⟨_, Or.inr (Or.inr rfl), rfl, (allgather_exit_errflag_spec _).1,
        (allgather_exit_errflag_spec _).2⟩

/-- Witness for C6 at a concrete call: nonzero counts, bodies that raise the flag. -/
theorem allgather_intra_errflag_exit_witness :
    (c6_args.sendcount ≠ 0 ∨ c6_args.sendbuf_in_place = true) ∧
    c6_args.recvcount ≠ 0 ∧
    ∃ inner : Int × Unit × MPIR_Errflag_t,
      (inner = MPIR_Allgather_recursive_doubling err_body c6_args c6_comm ()
          MPIR_Errflag_t.err_none ∨
       inner = MPIR_Allgather_brucks err_body c6_args c6_comm ()
          MPIR_Errflag_t.err_none ∨
       inner = MPIR_Allgather_ring err_body c6_args c6_comm ()
          MPIR_Errflag_t.err_none) ∧
      MPIR_Allgather_intra err_body err_body err_body default_cvars c6_args c6_comm ()
          MPIR_Errflag_t.err_none = allgather_exit_errflag inner ∧
      (inner.2.2 ≠ MPIR_Errflag_t.err_none →
        MPIR_Allgather_intra err_body err_body err_body default_cvars c6_args c6_comm ()
            MPIR_Errflag_t.err_none = (coll_fail_code inner.2.2, inner.2.1, inner.2.2) ∧
        coll_fail_code inner.2.2 ≠ MPI_SUCCESS) ∧
      (inner.2.2 = MPIR_Errflag_t.err_none → inner.1 = MPI_SUCCESS →
        MPIR_Allgather_intra err_body err_body err_body default_cvars c6_args c6_comm ()
            MPIR_Errflag_t.err_none = (MPI_SUCCESS, inner.2.1, inner.2.2)) :=
  ⟨Or.inl (by decide), by decide,
   allgather_intra_errflag_exit err_body err_body err_body default_cvars c6_args
     c6_comm () MPIR_Errflag_t.err_none (Or.inl (by decide)) (by decide)⟩

/-- C7 (amended): device preemption is controlled by the conjunction of the two
boolean cvars MPIR_CVAR_ALLGATHER_DEVICE_COLLECTIVE and MPIR_CVAR_DEVICE_COLLECTIVES:
when both are enabled the device implementation is invoked (the outcome is
independent of this core's algorithm bodies); when either is disabled the core's
dispatch MPIR_Allgather executes (the outcome is independent of the device body and
equals the wrapped MPIR_Allgather result). -/
theorem MPI_Allgather_device_preemption {σ : Type}
    (device device' rd br ri gi rd' br' ri' gi' : AlgBody σ) (cvars : Cvars)
    (err_return : Int → Int) (args : AllgatherArgs) (comm : MPIR_Comm) (st : σ) :
    ((cvars.allgather_device_collective && cvars.device_collectives) = true →
      MPI_Allgather device rd br ri gi cvars err_return args comm st =
        MPI_Allgather device rd' br' ri' gi' cvars err_return args comm st) ∧
    ((cvars.allgather_device_collective && cvars.device_collectives) = false →
      MPI_Allgather device rd br ri gi cvars err_return args comm st =
        MPI_Allgather device' rd br ri gi cvars err_return args comm st ∧
      ∃ r, r = MPIR_Allgather rd br ri gi cvars args comm st MPIR_Errflag_t.err_none ∧
        MPI_Allgather device rd br ri gi cvars err_return args comm st =
          ((if r.1 = MPI_SUCCESS then MPI_SUCCESS else err_return r.1), r.2.1)) := by
  constructor
  · intro h
    simp [MPI_Allgather, h]
  · intro h
    refine ⟨by simp [MPI_Allgather, h], _, rfl, ?_⟩
    by_cases he :
        (MPIR_Allgather rd br ri gi cvars args comm st MPIR_Errflag_t.err_none).1 =
          MPI_SUCCESS <;>
      simp [MPI_Allgather, h, he]

/-- Witness for C7 (amended) with both booleans enabled: the outcome ignores the
algorithm bodies entirely. -/
theorem MPI_Allgather_device_preemption_witness :
    (default_cvars.allgather_device_collective && default_cvars.device_collectives)
      = true ∧
    MPI_Allgather c7_device triv_body triv_body triv_body triv_body default_cvars id
      c7_args c7_comm () =
    MPI_Allgather c7_device err_body err_body err_body err_body default_cvars id
      c7_args c7_comm () :=
  ⟨by decide,
   (MPI_Allgather_device_preemption c7_device c7_device triv_body triv_body triv_body
     triv_body err_body err_body err_body err_body default_cvars id c7_args c7_comm
     ()).1 (by decide)⟩

/-- C7 counterexample: with MPIR_CVAR_ALLGATHER_DEVICE_COLLECTIVE enabled but
MPIR_CVAR_DEVICE_COLLECTIVES disabled, the call returns the MPIR path's outcome
(MPI_SUCCESS on this zero-size call) and not the outcome the device implementation
would produce (error code 7): enabling the single allgather device boolean does not
make the device implementation run. -/
theorem MPI_Allgather_device_single_boolean_counterexample :
    c7_cvars.allgather_device_collective = true ∧
    MPI_Allgather c7_device triv_body triv_body triv_body triv_body c7_cvars id
      c7_args c7_comm () = (MPI_SUCCESS, ()) ∧
    (c7_device c7_args c7_comm () MPIR_Errflag_t.err_none).1 = 7 ∧
    (7 : Int) ≠ MPI_SUCCESS := by
  refine ⟨rfl, by decide, rfl, by decide⟩

/-- C9: the automatic intra-group selection is rank-independent (and independent of
the buffer contents and of the send-side arguments): two calls that agree on
recvcount, receive type size, group size and configuration select the same
algorithm, whatever their ranks and states. -/
theorem allgather_intra_select_rank_independent {σ₁ σ₂ : Type} (cvars : Cvars)
    (args1 args2 : AllgatherArgs) (comm1 comm2 : MPIR_Comm) (st1 : σ₁) (st2 : σ₂)
    (hsz : comm1.local_size = comm2.local_size)
    (hrc : args1.recvcount = args2.recvcount)
    (hts : args1.recvtype.type_size = args2.recvtype.type_size)
    (hs1 : args1.sendcount ≠ 0 ∨ args1.sendbuf_in_place = true)
    (hs2 : args2.sendcount ≠ 0 ∨ args2.sendbuf_in_place = true)
    (hr1 : args1.recvcount ≠ 0) :
    MPIR_Allgather_intra_select cvars args1 comm1 st1 =
      MPIR_Allgather_intra_select cvars args2 comm2 st2 := by
  have hb1 := allgather_zero_size_false args1 hs1 hr1
  have hb2 := allgather_zero_size_false args2 hs2 (hrc ▸ hr1)
  unfold MPIR_Allgather_intra_select
  simp only [hb1, hb2, Bool.false_eq_true, if_false]
  rw [hrc, hsz, hts]

/-- Witness for C9: ranks 0 and 3, different states and different send-side
arguments, equal recvcount/type size/group size: the same algorithm is selected. -/
theorem allgather_intra_select_rank_independent_witness :
    c9_comm1.local_size = c9_comm2.local_size ∧
    c9_args1.recvcount = c9_args2.recvcount ∧
    c9_args1.recvtype.type_size = c9_args2.recvtype.type_size ∧
    (c9_args1.sendcount ≠ 0 ∨ c9_args1.sendbuf_in_place = true) ∧
    (c9_args2.sendcount ≠ 0 ∨ c9_args2.sendbuf_in_place = true) ∧
    c9_args1.recvcount ≠ 0 ∧
    MPIR_Allgather_intra_select default_cvars c9_args1 c9_comm1 () =
      MPIR_Allgather_intra_select default_cvars c9_args2 c9_comm2 (42 : Nat) :=
  ⟨by decide, by decide, by decide, Or.inl (by decide), Or.inr (by decide), by decide,
   allgather_intra_select_rank_independent default_cvars c9_args1 c9_args2 c9_comm1
     c9_comm2 () (42 : Nat) (by decide) (by decide) (by decide)
     (Or.inl (by decide)) (Or.inr (by decide)) (by decide)⟩

/-- C1: for every intra-group call dispatched through the automatic selection policy
with nonzero send and receive counts, letting n = recvcount * comm_size * type_size
bytes (exact below 2^63, so MPI_Aint arithmetic does not wrap): when n is strictly
below the long-message threshold and the size is a power of two, recursive doubling
is selected; otherwise when n is strictly below the short-message threshold, Bruck's
algorithm is selected; otherwise the ring algorithm is selected.  In particular, for
every power-of-two size and every n with short threshold <= n < long threshold,
recursive doubling is still chosen: the long-message check is evaluated first. -/
theorem allgather_intra_auto_selection {σ : Type} (cvars : Cvars)
    (args : AllgatherArgs) (comm : MPIR_Comm) (st : σ) (n : Int)
    (hsend : args.sendcount ≠ 0 ∨ args.sendbuf_in_place = true)
    (hrecv : args.recvcount ≠ 0)
    (hsz : 1 ≤ comm.local_size)
    (hn : n = ((args.recvcount * comm.local_size * args.recvtype.type_size : Nat) : Int))
    (hov : args.recvcount * comm.local_size * args.recvtype.type_size < 2 ^ 63) :
    ((n < cvars.long_msg_size ∧ ∃ k, comm.local_size = 2 ^ k) →
      MPIR_Allgather_intra_select cvars args comm st =
        some AllgatherAlg.recursive_doubling) ∧
    (¬ (n < cvars.long_msg_size ∧ ∃ k, comm.local_size = 2 ^ k) →
      n < cvars.short_msg_size →
      MPIR_Allgather_intra_select cvars args comm st = some AllgatherAlg.brucks) ∧
    (¬ (n < cvars.long_msg_size ∧ ∃ k, comm.local_size = 2 ^ k) →
      ¬ n < cvars.short_msg_size →
      MPIR_Allgather_intra_select cvars args comm st = some AllgatherAlg.ring) ∧
    ((∃ k, comm.local_size = 2 ^ k) → cvars.short_msg_size ≤ n →
      n < cvars.long_msg_size →
      MPIR_Allgather_intra_select cvars args comm st =
        some AllgatherAlg.recursive_doubling) := by
  have hb := allgather_zero_size_false args hsend hrecv
  have htot : toMPIAint (args.recvcount * comm.local_size * args.recvtype.type_size)
      = n := by
    rw [hn]
    exact toMPIAint_eq _ hov
  have hp2 := land_pred_eq_zero_iff comm.local_size hsz
  unfold MPIR_Allgather_intra_select
  simp only [hb, Bool.false_eq_true, if_false, htot]
  refine ⟨?_, ?_, ?_, ?_⟩
  · rintro ⟨h1, h2⟩
    rw [if_pos ⟨h1, hp2.mpr h2⟩]
  · intro hno h2
    rw [if_neg (fun hc => hno ⟨hc.1, hp2.mp hc.2⟩), if_pos h2]
  · intro hno h2
    rw [if_neg (fun hc => hno ⟨hc.1, hp2.mp hc.2⟩), if_neg h2]
  · rintro hk h3 h4
    rw [if_pos ⟨h4, hp2.mpr hk⟩]

/-- Witness for C1 at recvcount = 1, type size 100000, size 4: n = 400000 lies
between the default short threshold 81920 and the default long threshold 524288, and
4 is a power of two, so recursive doubling is chosen although n is above the short
threshold. -/
theorem allgather_intra_auto_selection_witness :
    (c1_args.sendcount ≠ 0 ∨ c1_args.sendbuf_in_place = true) ∧
    c1_args.recvcount ≠ 0 ∧
    1 ≤ c1_comm.local_size ∧
    (400000 : Int) =
      ((c1_args.recvcount * c1_comm.local_size * c1_args.recvtype.type_size : Nat)
        : Int) ∧
    c1_args.recvcount * c1_comm.local_size * c1_args.recvtype.type_size < 2 ^ 63 ∧
    (∃ k, c1_comm.local_size = 2 ^ k) ∧
    default_cvars.short_msg_size ≤ (400000 : Int) ∧
    (400000 : Int) < default_cvars.long_msg_size ∧
    MPIR_Allgather_intra_select default_cvars c1_args c1_comm () =
      some AllgatherAlg.recursive_doubling :=
  ⟨Or.inl (by decide), by decide, by decide, by decide, by decide, ⟨2, by decide⟩,
   by decide, by decide,
   (allgather_intra_auto_selection default_cvars c1_args c1_comm () (400000 : Int)
     (Or.inl (by decide)) (by decide) (by decide) (by decide) (by decide)).2.2.2
     ⟨2, by decide⟩ (by decide) (by decide)⟩

/-- Reducing the left operand of a subtraction modulo s does not change the result
modulo s. -/
theorem emod_sub_left (a k s : Int) : (a % s - k) % s = (a - k) % s := by
  rw [Int.sub_emod, Int.emod_emod_of_dvd a dvd_rfl, ← Int.sub_emod]

/-- Reducing the right operand of a subtraction modulo s does not change the result
modulo s. -/
theorem emod_sub_right (a b s : Int) : (a - b % s) % s = (a - b) % s := by
  rw [Int.sub_emod, Int.emod_emod_of_dvd b dvd_rfl, ← Int.sub_emod]

/-- The ring-walk block index is always a valid block. -/
theorem ringBlock_lt (rank comm_size k : Nat) (hs : 0 < comm_size) :
    ringBlock rank comm_size k < comm_size := by
  unfold ringBlock
  have h0 : (0 : Int) < (comm_size : Int) := by exact_mod_cast hs
  have h1 := Int.emod_nonneg ((rank : Int) - (k : Int)) h0.ne'
  have h2 := Int.emod_lt_of_pos ((rank : Int) - (k : Int)) h0
  omega

/-- Cast form of ringBlock. -/
theorem ringBlock_cast (rank comm_size k : Nat) (hs : 0 < comm_size) :
    ((ringBlock rank comm_size k : Nat) : Int) =
      ((rank : Int) - (k : Int)) % (comm_size : Int) := by
  unfold ringBlock
  apply Int.toNat_of_nonneg
  have h0 : (0 : Int) < (comm_size : Int) := by exact_mod_cast hs
  exact Int.emod_nonneg _ h0.ne'

/-- The walk starts at the caller's own block. -/
theorem ringBlock_zero (rank comm_size : Nat) (hr : rank < comm_size) :
    ringBlock rank comm_size 0 = rank := by
  unfold ringBlock
  have h1 : ((rank : Int) - ((0 : Nat) : Int)) = (rank : Int) := by norm_num
  rw [h1, Int.emod_eq_of_lt (by positivity) (by exact_mod_cast hr)]
  simp

/-- The C decrement `(comm_size + j - 1) % comm_size` equals one ring-walk step. -/
theorem ringBlock_one_eq (j comm_size : Nat) (hs : 0 < comm_size) :
    (comm_size + j - 1) % comm_size = ringBlock j comm_size 1 := by
  have h1 : ((comm_size + j - 1 : Nat) : Int) = (j : Int) - 1 + comm_size := by omega
  have h3 : (((comm_size + j - 1) % comm_size : Nat) : Int) =
      ((comm_size + j - 1 : Nat) : Int) % (comm_size : Int) := by
    push_cast
    ring
  have h2 : ((j : Int) - 1 + (comm_size : Int)) % (comm_size : Int) =
      ((j : Int) - 1) % (comm_size : Int) := by
    have h := Int.add_mul_emod_self_left ((j : Int) - 1) (comm_size : Int) 1
    rw [mul_one] at h
    exact h
  have h4 : (((comm_size + j - 1) % comm_size : Nat) : Int) =
      ((j : Int) - 1) % (comm_size : Int) := by
    rw [h3, h1, h2]
  have h5 : ringBlock j comm_size 1 =
      (((j : Int) - 1) % (comm_size : Int)).toNat := by
    unfold ringBlock
    norm_num
  omega

/-- Composing walks: one step then k steps equals k+1 steps. -/
theorem ringBlock_shift (j comm_size k : Nat) (hs : 0 < comm_size) :
    ringBlock (ringBlock j comm_size 1) comm_size k = ringBlock j comm_size (k + 1) := by
  have hc1 : ((ringBlock j comm_size 1 : Nat) : Int) =
      ((j : Int) - 1) % (comm_size : Int) := by
    have h := ringBlock_cast j comm_size 1 hs
    simpa using h
  have hl := ringBlock_cast (ringBlock j comm_size 1) comm_size k hs
  have hr := ringBlock_cast j comm_size (k + 1) hs
  rw [hc1, emod_sub_left] at hl
  have he : ((j : Int) - 1 - (k : Int)) % (comm_size : Int) =
      ((j : Int) - ((k + 1 : Nat) : Int)) % (comm_size : Int) := by
    congr 1
    push_cast
    ring
  rw [he] at hl
  omega

/-- Closed form of the ring scheduling loop: starting at block j with jnext one step
behind, n iterations record, for k = 0 .. n-1, a send of block (j-k) mod comm_size, a
receive into block (j-k-1) mod comm_size, and a barrier. -/
theorem ring_sched_loop_closed (comm_size left right : Nat) (hs : 0 < comm_size) :
    ∀ (n j : Nat), j < comm_size →
      ring_sched_loop comm_size left right j ((comm_size + j - 1) % comm_size) n =
        ((List.range n).map (fun k =>
          [SchedOp.send (ringBlock j comm_size k) right,
           SchedOp.recv (ringBlock j comm_size (k + 1)) left,
           SchedOp.barrier])).flatten := by
  intro n
  induction n with
  | zero =>
    intro j hj
    simp [ring_sched_loop]
  | succ n ih =>
    intro j hj
    rw [ring_sched_loop]
    rw [ringBlock_one_eq j comm_size hs]
    rw [ih (ringBlock j comm_size 1) (ringBlock_lt j comm_size 1 hs)]
    have hfun : (fun k =>
        [SchedOp.send (ringBlock (ringBlock j comm_size 1) comm_size k) right,
         SchedOp.recv (ringBlock (ringBlock j comm_size 1) comm_size (k + 1)) left,
         SchedOp.barrier]) = fun k =>
        [SchedOp.send (ringBlock j comm_size (k + 1)) right,
         SchedOp.recv (ringBlock j comm_size (k + 1 + 1)) left,
         SchedOp.barrier] := by
      funext k
      rw [ringBlock_shift j comm_size k hs, ringBlock_shift j comm_size (k + 1) hs]
    rw [hfun, List.range_succ_eq_map, List.map_cons, List.flatten_cons, List.map_map]
    simp [Function.comp, ringBlock_zero j comm_size hj, Nat.succ_eq_add_one]
    congr 1

/-- Send extraction over the flattened triple form of the loop. -/
theorem schedSends_triple_flatten (right left : Nat) (f g : Nat → Nat) (l : List Nat) :
    schedSends ((l.map (fun k =>
      [SchedOp.send (f k) right, SchedOp.recv (g k) left, SchedOp.barrier])).flatten) =
      l.map fun k => (f k, right) := by
  induction l with
  | nil => rfl
  | cons a t ih =>
    simp only [List.map_cons, List.flatten_cons, schedSends, List.filterMap_append]
    unfold schedSends at ih
    rw [ih]
    rfl

/-- Receive extraction over the flattened triple form of the loop. -/
theorem schedRecvs_triple_flatten (right left : Nat) (f g : Nat → Nat) (l : List Nat) :
    schedRecvs ((l.map (fun k =>
      [SchedOp.send (f k) right, SchedOp.recv (g k) left, SchedOp.barrier])).flatten) =
      l.map fun k => (g k, left) := by
  induction l with
  | nil => rfl
  | cons a t ih =>
    simp only [List.map_cons, List.flatten_cons, schedRecvs, List.filterMap_append]
    unfold schedRecvs at ih
    rw [ih]
    rfl

/-- Send extraction distributes over append. -/
theorem schedSends_append (l1 l2 : List SchedOp) :
    schedSends (l1 ++ l2) = schedSends l1 ++ schedSends l2 := by
  unfold schedSends
  rw [List.filterMap_append]

/-- Receive extraction distributes over append. -/
theorem schedRecvs_append (l1 l2 : List SchedOp) :
    schedRecvs (l1 ++ l2) = schedRecvs l1 ++ schedRecvs l2 := by
  unfold schedRecvs
  rw [List.filterMap_append]

/-- The send operations of the full ring schedule: one per loop iteration, block
(rank-k) mod comm_size at iteration k, always addressed to the right neighbor. -/
theorem schedSends_ring (inPlace : Bool) (rank comm_size : Nat) (hs : 0 < comm_size)
    (hr : rank < comm_size) :
    schedSends (MPIR_Iallgather_ring_sched inPlace rank comm_size) =
      (List.range (comm_size - 1)).map
        (fun k => (ringBlock rank comm_size k, (rank + 1) % comm_size)) := by
  unfold MPIR_Iallgather_ring_sched
  dsimp only
  rw [ring_sched_loop_closed comm_size ((comm_size + rank - 1) % comm_size)
    ((rank + 1) % comm_size) hs (comm_size - 1) rank hr]
  rw [schedSends_append, schedSends_triple_flatten]
  cases inPlace <;> simp [schedSends]

/-- The receive operations of the full ring schedule: one per loop iteration, block
(rank-k-1) mod comm_size at iteration k, always from the left neighbor. -/
theorem schedRecvs_ring (inPlace : Bool) (rank comm_size : Nat) (hs : 0 < comm_size)
    (hr : rank < comm_size) :
    schedRecvs (MPIR_Iallgather_ring_sched inPlace rank comm_size) =
      (List.range (comm_size - 1)).map
        (fun k => (ringBlock rank comm_size (k + 1), (comm_size + rank - 1) % comm_size)) := by
  unfold MPIR_Iallgather_ring_sched
  dsimp only
  rw [ring_sched_loop_closed comm_size ((comm_size + rank - 1) % comm_size)
    ((rank + 1) % comm_size) hs (comm_size - 1) rank hr]
  rw [schedRecvs_append, schedRecvs_triple_flatten]
  cases inPlace <;> simp [schedRecvs]

/-- A received block is never the caller's own block. -/
theorem ringBlock_succ_ne_rank (rank comm_size k : Nat) (hs : 0 < comm_size)
    (hr : rank < comm_size) (hk : k < comm_size - 1) :
    ringBlock rank comm_size (k + 1) ≠ rank := by
  intro he
  have hc := ringBlock_cast rank comm_size (k + 1) hs
  rw [he] at hc
  have hmod : ((rank : Int) - ((k + 1 : Nat) : Int)) % (comm_size : Int) =
      (rank : Int) % (comm_size : Int) := by
    rw [← hc, Int.emod_eq_of_lt (by positivity) (by exact_mod_cast hr)]
  have hd := Int.dvd_of_emod_eq_zero
    ((Int.emod_eq_emod_iff_emod_sub_eq_zero).mp hmod)
  have hsimp : ((rank : Int) - ((k + 1 : Nat) : Int)) - (rank : Int) =
      -((k + 1 : Nat) : Int) := by ring
  rw [hsimp] at hd
  have h0 := Int.eq_zero_of_dvd_of_natAbs_lt_natAbs hd (by omega)
  omega

/-- Distinct loop iterations receive into distinct blocks. -/
theorem ring_recv_blocks_nodup (rank comm_size : Nat) (hs : 0 < comm_size) :
    ((List.range (comm_size - 1)).map
      (fun k => ringBlock rank comm_size (k + 1))).Nodup := by
  apply List.Nodup.map_on ?_ (List.nodup_range _)
  intro x hx y hy hxy
  rw [List.mem_range] at hx hy
  have e1 := ringBlock_cast rank comm_size (x + 1) hs
  have e2 := ringBlock_cast rank comm_size (y + 1) hs
  have hmod : ((rank : Int) - ((x + 1 : Nat) : Int)) % (comm_size : Int) =
      ((rank : Int) - ((y + 1 : Nat) : Int)) % (comm_size : Int) := by
    rw [← e1, ← e2, hxy]
  have hd := Int.dvd_of_emod_eq_zero
    ((Int.emod_eq_emod_iff_emod_sub_eq_zero).mp hmod)
  have hsimp : ((rank : Int) - ((x + 1 : Nat) : Int)) -
      ((rank : Int) - ((y + 1 : Nat) : Int)) = ((y : Int) - (x : Int)) := by
    push_cast
    ring
  rw [hsimp] at hd
  have h0 := Int.eq_zero_of_dvd_of_natAbs_lt_natAbs hd (by omega)
  omega

/-- Every block other than the caller's own is received at some loop iteration. -/
theorem ring_recv_blocks_mem (rank comm_size b : Nat) (hs : 0 < comm_size)
    (hr : rank < comm_size) (hb : b < comm_size) (hbr : b ≠ rank) :
    b ∈ (List.range (comm_size - 1)).map
      (fun k => ringBlock rank comm_size (k + 1)) := by
  rw [List.mem_map]
  refine ⟨(rank + comm_size - b - 1) % comm_size, ?_, ?_⟩
  · rw [List.mem_range]
    have hK : (rank + comm_size - b - 1) % comm_size < comm_size := Nat.mod_lt _ hs
    have hA : (((rank + comm_size - b - 1) % comm_size : Nat) : Int) =
        ((rank : Int) - b - 1) % (comm_size : Int) := by
      have h1 : ((rank + comm_size - b - 1 : Nat) : Int) =
          ((rank : Int) - b - 1) + (comm_size : Int) * 1 := by omega
      have h3 : (((rank + comm_size - b - 1) % comm_size : Nat) : Int) =
          ((rank + comm_size - b - 1 : Nat) : Int) % (comm_size : Int) := by
        push_cast
        ring
      rw [h3, h1, Int.add_mul_emod_self_left]
    by_contra hcon
    have hKeq : (rank + comm_size - b - 1) % comm_size = comm_size - 1 := by omega
    rw [hKeq] at hA
    have hs1 : ((comm_size - 1 : Nat) : Int) = ((-1 : Int)) % (comm_size : Int) := by
      have hx : ((-1 : Int)) % (comm_size : Int) =
          ((-1 : Int) + (comm_size : Int) * 1) % (comm_size : Int) := by
        rw [Int.add_mul_emod_self_left]
      rw [hx, Int.emod_eq_of_lt (by omega) (by omega)]
      omega
    rw [hs1] at hA
    have hd := Int.dvd_of_emod_eq_zero
      ((Int.emod_eq_emod_iff_emod_sub_eq_zero).mp hA.symm)
    have hsimp : ((rank : Int) - b - 1) - (-1 : Int) = (rank : Int) - b := by ring
    rw [hsimp] at hd
    have h0 := Int.eq_zero_of_dvd_of_natAbs_lt_natAbs hd (by omega)
    omega
  · have hA : (((rank + comm_size - b - 1) % comm_size : Nat) : Int) =
        ((rank : Int) - b - 1) % (comm_size : Int) := by
      have h1 : ((rank + comm_size - b - 1 : Nat) : Int) =
          ((rank : Int) - b - 1) + (comm_size : Int) * 1 := by omega
      have h3 : (((rank + comm_size - b - 1) % comm_size : Nat) : Int) =
          ((rank + comm_size - b - 1 : Nat) : Int) % (comm_size : Int) := by
        push_cast
        ring
      rw [h3, h1, Int.add_mul_emod_self_left]
    have hc := ringBlock_cast rank comm_size
      ((rank + comm_size - b - 1) % comm_size + 1) hs
    have hcast : ((((rank + comm_size - b - 1) % comm_size + 1 : Nat)) : Int) =
        (((rank + comm_size - b - 1) % comm_size : Nat) : Int) + 1 := by push_cast; ring
    rw [hcast, hA] at hc
    have hstep : ((rank : Int) - (((rank : Int) - b - 1) % (comm_size : Int) + 1))
        % (comm_size : Int) = (b : Int) := by
      have h6 : ((rank : Int) - (((rank : Int) - b - 1) % (comm_size : Int) + 1))
          = (((rank : Int) - 1) - ((rank : Int) - b - 1) % (comm_size : Int)) := by ring
      rw [h6, emod_sub_right]
      have h7 : ((rank : Int) - 1) - ((rank : Int) - b - 1) = (b : Int) := by ring
      rw [h7, Int.emod_eq_of_lt (by positivity) (by exact_mod_cast hb)]
    rw [hstep] at hc
    omega

/-- Each block other than the caller's own appears exactly once among the received
blocks; the caller's own block never does. -/
theorem ring_recv_blocks_count (rank comm_size b : Nat) (hs : 0 < comm_size)
    (hr : rank < comm_size) (hb : b < comm_size) :
    ((List.range (comm_size - 1)).map
      (fun k => ringBlock rank comm_size (k + 1))).count b =
      if b = rank then 0 else 1 := by
  by_cases hbr : b = rank
  · subst hbr
    rw [if_pos rfl]
    apply List.count_eq_zero.mpr
    intro hmem
    rw [List.mem_map] at hmem
    obtain ⟨k, hk, he⟩ := hmem
    rw [List.mem_range] at hk
    exact ringBlock_succ_ne_rank b comm_size k hs hr hk he
  · rw [if_neg hbr]
    have h1 := List.nodup_iff_count_le_one.mp (ring_recv_blocks_nodup rank comm_size hs) b
    have h2 := List.count_pos_iff.mpr
      (ring_recv_blocks_mem rank comm_size b hs hr hb hbr)
    omega

/-- C2: for every group size >= 2 and valid rank, the ring schedule builder emits
exactly comm_size-1 send/receive pairs; every send targets (rank+1) mod comm_size and
every receive comes from (rank-1+comm_size) mod comm_size; at step i (1-indexed) the
sent block is (rank-i+1) mod comm_size and the received block is (rank-i) mod
comm_size; both offsets decrement by one (mod comm_size) from each step to the next;
and across all steps every block index except the local rank is received exactly
once, the local rank never. -/
theorem ring_sched_steps (inPlace : Bool) (rank comm_size : Nat)
    (sched : List SchedOp)
    (hsched : sched = MPIR_Iallgather_ring_sched inPlace rank comm_size)
    (h2 : 2 ≤ comm_size) (hr : rank < comm_size) :
    (schedSends sched).length = comm_size - 1 ∧
    (schedRecvs sched).length = comm_size - 1 ∧
    (∀ p ∈ schedSends sched, p.2 = (rank + 1) % comm_size) ∧
    (∀ p ∈ schedRecvs sched, p.2 = (comm_size + rank - 1) % comm_size) ∧
    (∀ i, 1 ≤ i → i ≤ comm_size - 1 →
      (schedSends sched).get? (i - 1) =
        some ((((rank : Int) - (i : Int) + 1) % (comm_size : Int)).toNat,
          (rank + 1) % comm_size) ∧
      (schedRecvs sched).get? (i - 1) =
        some ((((rank : Int) - (i : Int)) % (comm_size : Int)).toNat,
          (comm_size + rank - 1) % comm_size)) ∧
    (∀ i, 1 ≤ i → i + 1 ≤ comm_size - 1 →
      ((schedSends sched).get? i).map Prod.fst =
        (((schedSends sched).get? (i - 1)).map
          (fun p => ((((p.1 : Nat) : Int) - 1) % (comm_size : Int)).toNat)) ∧
      ((schedRecvs sched).get? i).map Prod.fst =
        (((schedRecvs sched).get? (i - 1)).map
          (fun p => ((((p.1 : Nat) : Int) - 1) % (comm_size : Int)).toNat))) ∧
    (∀ b, b < comm_size →
      ((schedRecvs sched).map Prod.fst).count b = if b = rank then 0 else 1) := by
  have hs : 0 < comm_size := by omega
  subst hsched
  rw [schedSends_ring inPlace rank comm_size hs hr,
    schedRecvs_ring inPlace rank comm_size hs hr]
  have hblock : ∀ i : Nat, 1 ≤ i → i ≤ comm_size - 1 →
      ringBlock rank comm_size (i - 1) =
        (((rank : Int) - (i : Int) + 1) % (comm_size : Int)).toNat := by
    intro i h1 hi
    unfold ringBlock
    congr 2
    omega
  have hblock2 : ∀ i : Nat, 1 ≤ i →
      ringBlock rank comm_size i =
        (((rank : Int) - (i : Int)) % (comm_size : Int)).toNat := by
    intro i h1
    unfold ringBlock
    rfl
  refine ⟨by simp, by simp, ?_, ?_, ?_, ?_, ?_⟩
  · intro p hp
    rw [List.mem_map] at hp
    obtain ⟨k, _, rfl⟩ := hp
    rfl
  · intro p hp
    rw [List.mem_map] at hp
    obtain ⟨k, _, rfl⟩ := hp
    rfl
  · intro i h1 hi
    constructor
    · rw [List.get?_map, List.get?_range (by omega : i - 1 < comm_size - 1)]
      simp only [Option.map_some']
      rw [hblock i h1 hi]
    · rw [List.get?_map, List.get?_range (by omega : i - 1 < comm_size - 1)]
      simp only [Option.map_some']
      rw [show i - 1 + 1 = i by omega, hblock2 i h1]
  · intro i h1 hi
    constructor
    · rw [List.get?_map, List.get?_map, List.get?_range (by omega : i < comm_size - 1),
        List.get?_range (by omega : i - 1 < comm_size - 1)]
      simp only [Option.map_some']
      have hc := ringBlock_cast rank comm_size (i - 1) hs
      rw [hc, emod_sub_left]
      have harg : (rank : Int) - ((i - 1 : Nat) : Int) - 1 = (rank : Int) - (i : Int) := by
        omega
      rw [harg, hblock2 i h1]
    · rw [List.get?_map, List.get?_map, List.get?_range (by omega : i < comm_size - 1),
        List.get?_range (by omega : i - 1 < comm_size - 1)]
      simp only [Option.map_some']
      have hc := ringBlock_cast rank comm_size (i - 1 + 1) hs
      rw [hc, emod_sub_left]
      have harg : (rank : Int) - ((i - 1 + 1 : Nat) : Int) - 1 =
          (rank : Int) - ((i + 1 : Nat) : Int) := by omega
      rw [harg, hblock2 (i + 1) (by omega)]
  · intro b hb
    rw [List.map_map]
    have hcomp : (Prod.fst ∘ fun k =>
        (ringBlock rank comm_size (k + 1), (comm_size + rank - 1) % comm_size)) =
        fun k => ringBlock rank comm_size (k + 1) := by
      funext k
      rfl
    rw [hcomp]
    exact ring_recv_blocks_count rank comm_size b hs hr hb

/-- Witness for C2 at rank 2 in a group of 5 (non-in-place): the hypotheses hold and,
by the theorem, there are exactly 4 sends and block 0 is received exactly once. -/
theorem ring_sched_steps_witness :
    MPIR_Iallgather_ring_sched false 2 5 = MPIR_Iallgather_ring_sched false 2 5 ∧
    (2 : Nat) ≤ 5 ∧ (2 : Nat) < 5 ∧
    (schedSends (MPIR_Iallgather_ring_sched false 2 5)).length = 5 - 1 ∧
    ((schedRecvs (MPIR_Iallgather_ring_sched false 2 5)).map Prod.fst).count 0 =
      if 0 = 2 then 0 else 1 :=
  ⟨rfl, by decide, by decide,
   (ring_sched_steps false 2 5 (MPIR_Iallgather_ring_sched false 2 5) rfl
     (by decide) (by decide)).1,
   (ring_sched_steps false 2 5 (MPIR_Iallgather_ring_sched false 2 5) rfl
     (by decide) (by decide)).2.2.2.2.2.2 0 (by decide)⟩

/-- C4: in-place ring schedules never write the caller's own block (no copy is
emitted and every receive lands in a block other than rank); non-in-place schedules
write block rank exactly once, by the initial copy of the send buffer emitted before
any communication step; in both modes every block other than rank is filled by a
receive from the left neighbor. -/
theorem ring_sched_own_block_frame (inPlace : Bool) (rank comm_size : Nat)
    (sched : List SchedOp)
    (hsched : sched = MPIR_Iallgather_ring_sched inPlace rank comm_size)
    (hs : 0 < comm_size) (hr : rank < comm_size) :
    (inPlace = true → ∀ op ∈ sched, writesBlock op ≠ some rank) ∧
    (inPlace = false →
      ∃ rest, sched = SchedOp.copy rank :: SchedOp.barrier :: rest ∧
        ∀ op ∈ rest, writesBlock op ≠ some rank) ∧
    (∀ b, b < comm_size → b ≠ rank →
      (b, (comm_size + rank - 1) % comm_size) ∈ schedRecvs sched) := by
  subst hsched
  have hloop : ∀ op ∈ ring_sched_loop comm_size ((comm_size + rank - 1) % comm_size)
      ((rank + 1) % comm_size) rank ((comm_size + rank - 1) % comm_size)
      (comm_size - 1), writesBlock op ≠ some rank := by
    intro op hop
    rw [ring_sched_loop_closed comm_size ((comm_size + rank - 1) % comm_size)
      ((rank + 1) % comm_size) hs (comm_size - 1) rank hr] at hop
    rw [List.mem_flatten] at hop
    obtain ⟨l, hl, hop⟩ := hop
    rw [List.mem_map] at hl
    obtain ⟨k, hk, rfl⟩ := hl
    rw [List.mem_range] at hk
    simp only [List.mem_cons, List.not_mem_nil, or_false] at hop
    rcases hop with rfl | rfl | rfl
    · simp [writesBlock]
    · simp only [writesBlock, ne_eq, Option.some.injEq]
      exact ringBlock_succ_ne_rank rank comm_size k hs hr hk
    · simp [writesBlock]
  refine ⟨?_, ?_, ?_⟩
  · intro hip op hop
    subst hip
    unfold MPIR_Iallgather_ring_sched at hop
    simp only [if_true, List.nil_append] at hop
    exact hloop op hop
  · intro hip
    subst hip
    refine ⟨ring_sched_loop comm_size ((comm_size + rank - 1) % comm_size)
      ((rank + 1) % comm_size) rank ((comm_size + rank - 1) % comm_size)
      (comm_size - 1), ?_, hloop⟩
    rfl
  · intro b hb hbr
    rw [schedRecvs_ring inPlace rank comm_size hs hr]
    obtain ⟨k, hk, he⟩ := List.mem_map.mp
      (ring_recv_blocks_mem rank comm_size b hs hr hb hbr)
    exact List.mem_map.mpr ⟨k, hk, by rw [he]⟩

/-- Witness for C4 in both modes at rank 1 in a group of 3. -/
theorem ring_sched_own_block_frame_witness :
    MPIR_Iallgather_ring_sched true 1 3 = MPIR_Iallgather_ring_sched true 1 3 ∧
    (0 : Nat) < 3 ∧ (1 : Nat) < 3 ∧
    (∀ op ∈ MPIR_Iallgather_ring_sched true 1 3, writesBlock op ≠ some 1) ∧
    (∃ rest, MPIR_Iallgather_ring_sched false 1 3 =
        SchedOp.copy 1 :: SchedOp.barrier :: rest ∧
      ∀ op ∈ rest, writesBlock op ≠ some 1) :=
  ⟨rfl, by decide, by decide,
   (ring_sched_own_block_frame true 1 3 (MPIR_Iallgather_ring_sched true 1 3) rfl
     (by decide) (by decide)).1 rfl,
   (ring_sched_own_block_frame false 1 3 (MPIR_Iallgather_ring_sched false 1 3) rfl
     (by decide) (by decide)).2.1 rfl⟩

/-- C5: the ring schedule is exactly a prefix (empty when in-place, otherwise the
local copy followed by a barrier separating it from the first communication step)
followed by comm_size-1 triples send-recv-barrier: the send and receive of a step
are adjacent with no barrier between them, and a barrier closes each pair before the
next step's send is emitted. -/
theorem ring_sched_barrier_structure (inPlace : Bool) (rank comm_size : Nat)
    (sched : List SchedOp)
    (hsched : sched = MPIR_Iallgather_ring_sched inPlace rank comm_size)
    (hs : 0 < comm_size) (hr : rank < comm_size) :
    sched = (if inPlace then [] else [SchedOp.copy rank, SchedOp.barrier]) ++
      ((List.range (comm_size - 1)).map (fun k =>
        [SchedOp.send (ringBlock rank comm_size k) ((rank + 1) % comm_size),
         SchedOp.recv (ringBlock rank comm_size (k + 1))
           ((comm_size + rank - 1) % comm_size),
         SchedOp.barrier])).flatten := by
  subst hsched
  unfold MPIR_Iallgather_ring_sched
  dsimp only
  rw [ring_sched_loop_closed comm_size ((comm_size + rank - 1) % comm_size)
    ((rank + 1) % comm_size) hs (comm_size - 1) rank hr]

/-- Witness for C5 at rank 0 in a group of 3, non-in-place. -/
theorem ring_sched_barrier_structure_witness :
    MPIR_Iallgather_ring_sched false 0 3 = MPIR_Iallgather_ring_sched false 0 3 ∧
    (0 : Nat) < 3 ∧ (0 : Nat) < 3 ∧
    MPIR_Iallgather_ring_sched false 0 3 =
      (if false then [] else [SchedOp.copy 0, SchedOp.barrier]) ++
      ((List.range (3 - 1)).map (fun k =>
        [SchedOp.send (ringBlock 0 3 k) ((0 + 1) % 3),
         SchedOp.recv (ringBlock 0 3 (k + 1)) ((3 + 0 - 1) % 3),
         SchedOp.barrier])).flatten :=
  ⟨rfl, by decide, by decide,
   ring_sched_barrier_structure false 0 3 (MPIR_Iallgather_ring_sched false 0 3) rfl
     (by decide) (by decide)⟩
